import Mathlib

/-!
Shallow embedding of the `slog` structured logger (latest revision of
`log.go`: the scan-based, arbitrary-value design).

Modelling conventions:
* A Go `interface{}` value is `GoValue`: `vnil` is the nil interface,
  `vstr s` is a string, and `vother d` is any other non-nil value whose
  `fmt.Sprint` rendering is `d`.
* A Go `map[string]T` is an association list `List (String × T)` whose
  keys are unique (the Go map invariant); `mlookup` is map indexing and
  `mapInsert` is `m[k] = v` (modelled extensionally as remove-then-cons,
  which realises the same abstract map).
* The call stack is an input `List Frame`, innermost first, with index 0
  standing for the `runtime.Callers` frame itself.
* The wall clock is the input `now` (the formatted timestamp string).
* Side effects of one logging call are an ordered `List Effect`:
  writes to the sink, a raised panic with its payload, a process exit.
-/

/-- A Go `interface{}` value as far as this program observes it. -/
inductive GoValue where
  | vnil : GoValue
  | vstr : String → GoValue
  | vother : String → GoValue
deriving DecidableEq, Repr

/-- `fmt.Sprint` of a single operand: a string prints as itself, any
other value prints as its display form carried by the model. -/
def goSprint : GoValue → String
  | GoValue.vnil => "<nil>"
  | GoValue.vstr s => s
  | GoValue.vother d => d

/-- `Fields` from the source: `map[string]interface{}` as an assoc list. -/
abbrev Fields := List (String × GoValue)

/-- Go map indexing `m[k]` on the assoc-list representation. -/
def mlookup {α : Type} : List (String × α) → String → Option α
  | [], _ => none
  | kv :: rest, k => if kv.1 = k then some kv.2 else mlookup rest k

/-- Remove every binding of key `k` (helper for `mapInsert`). -/
def removeKey {α : Type} : List (String × α) → String → List (String × α)
  | [], _ => []
  | kv :: rest, k => if kv.1 = k then removeKey rest k else kv :: removeKey rest k

/-- Go map assignment `m[k] = v`, extensionally: the new binding wins and
all other keys keep their bindings. -/
def mapInsert {α : Type} (m : List (String × α)) (k : String) (v : α) : List (String × α) :=
  (k, v) :: removeKey m k

/-- The value stored by the merge loops of `log`:
`if v == nil { v = "nil" }; fmt.Sprint(v)`.  The same idiom renders the
message. -/
def renderValue (v : GoValue) : String :=
  goSprint (if v = GoValue.vnil then GoValue.vstr ("nil") else v)

/-- One iteration of a merge loop in `log`:
`combinedFields[k] = fmt.Sprint(v)` after the nil substitution. -/
def insertRendered (acc : List (String × String)) (kv : String × GoValue) :
    List (String × String) :=
  mapInsert acc kv.1 (renderValue kv.2)

/-- The `combinedFields` map built by `log` (lines 583-596): start from a
fresh empty map, range over the per-call fields, then range over the
permanent fields so that permanent bindings overwrite per-call ones. -/
def combinedFields (f : Fields) (permanentFields : Fields) : List (String × String) :=
  permanentFields.foldl insertRendered (f.foldl insertRendered [])

/-- The severity levels of the latest design. -/
inductive Level where
  | traceLevel | infoLevel | warnLevel | errorLevel | panicLevel | fatalLevel
deriving DecidableEq, Repr

/-- `string(lv)` for the level constants. -/
def levelString : Level → String
  | Level.traceLevel => "trace"
  | Level.infoLevel => "info"
  | Level.warnLevel => "warn"
  | Level.errorLevel => "error"
  | Level.panicLevel => "panic"
  | Level.fatalLevel => "fatal"

/-- One resolved stack frame: `runtime.Frame`'s `Function`, `File`, `Line`. -/
structure Frame where
  function : String
  file : String
  line : Nat
deriving DecidableEq, Repr

/-- The `Logger` of the latest design.  The sink (`logger *log.Logger`)
is represented by the effect trace; `slogPackageName` is the package
identifier captured once at construction by `initSlogPackageName`. -/
structure Logger where
  minimumCallerDepth : Nat
  maximumCallerDepth : Nat
  slogPackageName : String
  permanentFields : Fields
deriving Repr

/-- `New`: construction stores the permanent fields and the caller-depth
bounds 4 and 25; the package name is captured from the runtime, so it is
a parameter here. -/
def New (permanentFields : Fields) (slogPackageName : String) : Logger :=
  ⟨4, 25, slogPackageName, permanentFields⟩

/-- `strings.LastIndex`-style last occurrence of a character. -/
def lastIndexOf : List Char → Char → Option Nat
  | [], _ => none
  | a :: rest, c =>
    match lastIndexOf rest c with
    | some i => some (i + 1)
    | none => if a = c then some 0 else none

/-- `strings.LastIndex` including its `-1`-for-absent convention. -/
def goLastIndex (s : List Char) (c : Char) : Int :=
  match lastIndexOf s c with
  | some i => (i : Int)
  | none => -1

/-- The loop body of `getPackageName`: while the last period lies after
the last slash, truncate at that period.  Each consuming iteration
strictly shortens the string, so `f.length` iterations of fuel always
reach the loop's fixed point. -/
def getPackageNameAux : Nat → List Char → List Char
  | 0, f => f
  | fuel + 1, f =>
    if goLastIndex f '.' > goLastIndex f '/' then
      getPackageNameAux fuel (f.take (goLastIndex f '.').toNat)
    else f

/-- `getPackageName` (lines 649-661): strip trailing `.name` segments
after the last slash of a fully qualified function name. -/
def getPackageName (f : String) : String :=
  String.mk (getPackageNameAux f.data.length f.data)

/-- `filepath.Base` for slash-separated paths. -/
def filepathBase (path : String) : String :=
  if path = "" then "."
  else
    let p1 := (path.data.reverse.dropWhile (fun c => c == '/')).reverse
    let p2 := (p1.reverse.takeWhile (fun c => c != '/')).reverse
    if p2 = [] then "/" else String.mk p2

/-- The frames delivered by `runtime.Callers(minimumCallerDepth, pcs)`
with `pcs` of size `maximumCallerDepth`. -/
def captured (l : Logger) (stack : List Frame) : List Frame :=
  (stack.drop l.minimumCallerDepth).take l.maximumCallerDepth

/-- The scan loop of `fileNameAndLineNumber`:
`for f, again := frames.Next(); again; f, again = frames.Next()`.
`frames.Next` yields the head frame together with `again` saying whether
more frames follow; the body runs only when `again` is true, so the
final frame of the captured window is fetched but never examined. -/
def scanFrames (name : String) : List Frame → Option Frame
  | [] => none
  | fr :: rest =>
    match rest with
    | [] => none
    | _ :: _ =>
      if getPackageName fr.function = name then scanFrames name rest else some fr

/-- `fileNameAndLineNumber` (lines 617-634). -/
def fileNameAndLineNumber (l : Logger) (stack : List Frame) : String :=
  match scanFrames l.slogPackageName (captured l stack) with
  | none => "?:0"
  | some c => filepathBase c.file ++ ":" ++ toString c.line

/-- The `event` struct at marshal time.  By then every value it holds is
a string: the metadata literal, the merged fields (each stored via
`fmt.Sprint`), and the message (likewise). -/
structure LogEvent where
  metadata : List (String × String)
  fields : List (String × String)
  message : String
deriving DecidableEq, Repr

/-- `encoding/json` string escaping with Go's default HTML escaping. -/
def hexDigit (n : Nat) : Char := "0123456789abcdef".data.getD n '0'

/-- Two lowercase hex digits of a byte. -/
def hex2 (n : Nat) : String := String.mk [hexDigit (n / 16), hexDigit (n % 16)]

/-- Escape one character the way `encoding/json` does by default. -/
def escapeChar (c : Char) : String :=
  if c = '"' then "\\\""
  else if c = '\\' then "\\\\"
  else if c = '\n' then "\\n"
  else if c = '\r' then "\\r"
  else if c = '\t' then "\\t"
  else if c.toNat < 32 then "\\u00" ++ hex2 c.toNat
  else if c = '<' then "\\u003c"
  else if c = '>' then "\\u003e"
  else if c = '&' then "\\u0026"
  else if c.toNat = 8232 then "\\u2028"
  else if c.toNat = 8233 then "\\u2029"
  else String.singleton c

/-- Escape a character list. -/
def escapeList : List Char → String
  | [] => ""
  | c :: cs => escapeChar c ++ escapeList cs

/-- A JSON string literal for `s`. -/
def escapeString (s : String) : String := "\"" ++ escapeList s.data ++ "\""

/-- Join rendered members with commas. -/
def joinComma : List String → String
  | [] => ""
  | [s] => s
  | s :: rest => s ++ "," ++ joinComma rest

/-- Key order used by `encoding/json` when marshalling a map. -/
def keyLE (a b : String × String) : Prop := a.1 ≤ b.1

instance : DecidableRel keyLE := fun a b => inferInstanceAs (Decidable (a.1 ≤ b.1))

instance : IsTotal (String × String) keyLE := ⟨fun a b => le_total a.1 b.1⟩

instance : IsTrans (String × String) keyLE := ⟨fun _ _ _ hab hbc => le_trans hab hbc⟩

/-- `encoding/json` sorts map keys before emitting the members. -/
def sortByKey (m : List (String × String)) : List (String × String) :=
  List.insertionSort keyLE m

/-- Marshal a string-valued map: sorted keys, `"k":"v"` members. -/
def marshalStringMap (m : List (String × String)) : String :=
  "\x7b" ++ joinComma ((sortByKey m).map
    (fun kv => escapeString kv.1 ++ ":" ++ escapeString kv.2)) ++ "\x7d"

/-- The members the struct tags produce, in declaration order:
`_metadata`, then `fields` with `omitempty` (a map is omitted exactly
when it is empty), then `message`. -/
def eventMembers (e : LogEvent) : List (String × String) :=
  [("_metadata", marshalStringMap e.metadata)] ++
    (if e.fields = [] then [] else [("fields", marshalStringMap e.fields)]) ++
    [("message", escapeString e.message)]

/-- `json.Marshal(e)` for the event struct. -/
def serializeEvent (e : LogEvent) : String :=
  "\x7b" ++ joinComma ((eventMembers e).map
    (fun kv => escapeString kv.1 ++ ":" ++ kv.2)) ++ "\x7d"

/-- `log.Logger.Print` with empty prefix and zero flags performs one
write of the line, appending a newline unless one is already last. -/
def goLogPrint (s : String) : String :=
  if s.data.getLast? = some '\n' then s else s ++ "\n"

/-- One observable side effect of a logging call. -/
inductive Effect where
  | write : String → Effect
  | panicked : String → Effect
  | exited : Nat → Effect
deriving DecidableEq, Repr

/-- The event value built inside `log` (lines 600-608). -/
def Logger.logEvent (l : Logger) (lv : Level) (f : Fields) (msg : GoValue)
    (stack : List Frame) (now : String) : LogEvent :=
  ⟨[("level", levelString lv),
    ("file", fileNameAndLineNumber l stack),
    ("time", now)],
   combinedFields f l.permanentFields,
   renderValue msg⟩

/-- `log` (lines 583-615): merge, build the event, marshal, write once,
and raise the unwind signal when the level is `panic`. -/
def Logger.log (l : Logger) (lv : Level) (f : Fields) (msg : GoValue)
    (stack : List Frame) (now : String) : List Effect :=
  Effect.write (goLogPrint (serializeEvent (l.logEvent lv f msg stack now))) ::
    (if lv = Level.panicLevel
      then [Effect.panicked (serializeEvent (l.logEvent lv f msg stack now))]
      else [])

/-- `Trace`. -/
def Logger.Trace (l : Logger) (msg : GoValue) (stack : List Frame) (now : String) : List Effect :=
  l.log Level.traceLevel [] msg stack now

/-- `Tracef`. -/
def Logger.Tracef (l : Logger) (f : Fields) (msg : GoValue) (stack : List Frame) (now : String) : List Effect :=
  l.log Level.traceLevel f msg stack now

/-- `Info`. -/
def Logger.Info (l : Logger) (msg : GoValue) (stack : List Frame) (now : String) : List Effect :=
  l.log Level.infoLevel [] msg stack now

/-- `Infof`. -/
def Logger.Infof (l : Logger) (f : Fields) (msg : GoValue) (stack : List Frame) (now : String) : List Effect :=
  l.log Level.infoLevel f msg stack now

/-- `Warn`. -/
def Logger.Warn (l : Logger) (msg : GoValue) (stack : List Frame) (now : String) : List Effect :=
  l.log Level.warnLevel [] msg stack now

/-- `Warnf`. -/
def Logger.Warnf (l : Logger) (f : Fields) (msg : GoValue) (stack : List Frame) (now : String) : List Effect :=
  l.log Level.warnLevel f msg stack now

/-- `Error`. -/
def Logger.Error (l : Logger) (msg : GoValue) (stack : List Frame) (now : String) : List Effect :=
  l.log Level.errorLevel [] msg stack now

/-- `Errorf`. -/
def Logger.Errorf (l : Logger) (f : Fields) (msg : GoValue) (stack : List Frame) (now : String) : List Effect :=
  l.log Level.errorLevel f msg stack now

/-- `Panic`: the unwind is raised inside `log` after the write. -/
def Logger.Panic (l : Logger) (msg : GoValue) (stack : List Frame) (now : String) : List Effect :=
  l.log Level.panicLevel [] msg stack now

/-- `Panicf`. -/
def Logger.Panicf (l : Logger) (f : Fields) (msg : GoValue) (stack : List Frame) (now : String) : List Effect :=
  l.log Level.panicLevel f msg stack now

/-- `Fatal`: write, then `os.Exit(1)`. -/
def Logger.Fatal (l : Logger) (msg : GoValue) (stack : List Frame) (now : String) : List Effect :=
  l.log Level.fatalLevel [] msg stack now ++ [Effect.exited 1]

/-- `Fatalf`: write, then `os.Exit(1)`. -/
def Logger.Fatalf (l : Logger) (f : Fields) (msg : GoValue) (stack : List Frame) (now : String) : List Effect :=
  l.log Level.fatalLevel f msg stack now ++ [Effect.exited 1]

/-- The sink writes of an effect trace, in order. -/
def writesOf (tr : List Effect) : List String :=
  tr.filterMap (fun e => match e with
    | Effect.write s => some s
    | _ => none)

/-- The panic payloads of an effect trace, in order. -/
def panicsOf (tr : List Effect) : List String :=
  tr.filterMap (fun e => match e with
    | Effect.panicked s => some s
    | _ => none)

/-- The exit codes of an effect trace, in order. -/
def exitsOf (tr : List Effect) : List Nat :=
  tr.filterMap (fun e => match e with
    | Effect.exited c => some c
    | _ => none)


/-! Map lemmas: lookup laws for `removeKey`, `mapInsert` and the merge
loops, the Go-map key-uniqueness invariant, and emptiness. -/

theorem mlookup_removeKey {α : Type} (m : List (String × α)) (k k' : String) :
    mlookup (removeKey m k) k' = if k' = k then none else mlookup m k' := by
  induction m with
  | nil => simp [removeKey, mlookup]
  | cons kv rest ih =>
    simp only [removeKey]
    by_cases h1 : kv.1 = k
    · rw [if_pos h1, ih]
      simp only [mlookup]
      by_cases h2 : k' = k
      · simp [h2]
      · have h3 : ¬ kv.1 = k' := by
          intro h
          exact h2 (by rw [← h, h1])
        simp [h2, h3]
    · rw [if_neg h1]
      simp only [mlookup, ih]
      by_cases h2 : k' = k
      · have h3 : ¬ kv.1 = k' := by
          intro h
          exact h1 (by rw [h, h2])
        simp [h2, h3, h1]
      · by_cases h3 : kv.1 = k' <;> simp [h2, h3]


theorem mlookup_mapInsert {α : Type} (m : List (String × α)) (k : String) (v : α)
    (k' : String) :
    mlookup (mapInsert m k v) k' = if k' = k then some v else mlookup m k' := by
  simp only [mapInsert, mlookup, mlookup_removeKey]
  by_cases h : k' = k
  · simp [h]
  · have h2 : ¬ k = k' := fun hh => h hh.symm
    simp [h, h2]

theorem mlookup_eq_none_of_not_mem_keys {α : Type} (m : List (String × α)) (k : String)
    (h : k ∉ m.map Prod.fst) : mlookup m k = none := by
  induction m with
  | nil => simp [mlookup]
  | cons kv rest ih =>
    simp only [List.map_cons, List.mem_cons] at h
    push_neg at h
    have h1 : ¬ kv.1 = k := fun hh => h.1 hh.symm
    simp [mlookup, h1, ih h.2]

theorem removeKey_sublist {α : Type} (m : List (String × α)) (k : String) :
    (removeKey m k).Sublist m := by
  induction m with
  | nil => simp [removeKey]
  | cons kv rest ih =>
    by_cases h : kv.1 = k
    · simp only [removeKey, if_pos h]
      exact ih.cons kv
    · simp only [removeKey, if_neg h]
      exact ih.cons₂ kv

theorem not_mem_keys_removeKey {α : Type} (m : List (String × α)) (k : String) :
    k ∉ (removeKey m k).map Prod.fst := by
  induction m with
  | nil => simp [removeKey]
  | cons kv rest ih =>
    by_cases h : kv.1 = k
    · simpa [removeKey, h] using ih
    · simp only [removeKey, if_neg h, List.map_cons, List.mem_cons]
      push_neg
      exact ⟨fun hh => h hh.symm, ih⟩

theorem nodup_keys_mapInsert {α : Type} (m : List (String × α)) (k : String) (v : α)
    (h : (m.map Prod.fst).Nodup) : ((mapInsert m k v).map Prod.fst).Nodup := by
  simp only [mapInsert, List.map_cons, List.nodup_cons]
  exact ⟨not_mem_keys_removeKey m k, ((removeKey_sublist m k).map Prod.fst).nodup h⟩

theorem nodup_keys_foldl_insertRendered (entries : Fields)
    (acc : List (String × String)) (h : (acc.map Prod.fst).Nodup) :
    (((entries.foldl insertRendered acc).map Prod.fst)).Nodup := by
  induction entries generalizing acc with
  | nil => simpa using h
  | cons kv rest ih =>
    simp only [List.foldl_cons]
    exact ih (insertRendered acc kv) (nodup_keys_mapInsert acc kv.1 (renderValue kv.2) h)

theorem nodup_keys_combinedFields (f p : Fields) :
    ((combinedFields f p).map Prod.fst).Nodup := by
  unfold combinedFields
  exact nodup_keys_foldl_insertRendered p _
    (nodup_keys_foldl_insertRendered f [] (by simp))

theorem foldl_insertRendered_eq_nil (entries : Fields) (acc : List (String × String)) :
    entries.foldl insertRendered acc = [] ↔ acc = [] ∧ entries = [] := by
  induction entries generalizing acc with
  | nil => simp
  | cons kv rest ih =>
    simp only [List.foldl_cons]
    rw [ih]
    constructor
    · intro hh
      exact absurd hh.1 (by simp [insertRendered, mapInsert])
    · intro hh
      exact absurd hh.2 (by simp)

theorem combinedFields_eq_nil (f p : Fields) :
    combinedFields f p = [] ↔ f = [] ∧ p = [] := by
  unfold combinedFields
  rw [foldl_insertRendered_eq_nil, foldl_insertRendered_eq_nil]
  constructor
  · intro hh
    exact ⟨hh.1.2, hh.2⟩
  · intro hh
    exact ⟨⟨rfl, hh.1⟩, hh.2⟩

theorem mlookup_foldl_insertRendered (entries : Fields) (acc : List (String × String))
    (k : String) (h : (entries.map Prod.fst).Nodup) :
    mlookup (entries.foldl insertRendered acc) k =
      match mlookup entries k with
      | some v => some (renderValue v)
      | none => mlookup acc k := by
  induction entries generalizing acc with
  | nil => simp [mlookup]
  | cons kv rest ih =>
    simp only [List.map_cons, List.nodup_cons] at h
    simp only [List.foldl_cons]
    rw [ih _ h.2]
    by_cases h2 : kv.1 = k
    · have h3 : mlookup rest k = none :=
        mlookup_eq_none_of_not_mem_keys rest k (h2 ▸ h.1)
      simp [mlookup, h2, h3, insertRendered, mlookup_mapInsert]
    · simp only [mlookup, if_neg h2]
      cases hr : mlookup rest k with
      | some v => simp
      | none =>
        have h4 : ¬ k = kv.1 := fun hh => h2 hh.symm
        simp [insertRendered, mlookup_mapInsert, mlookup_removeKey, h4]

theorem mlookup_combinedFields (f p : Fields) (k : String)
    (hf : (f.map Prod.fst).Nodup) (hp : (p.map Prod.fst).Nodup) :
    mlookup (combinedFields f p) k =
      match mlookup p k with
      | some v => some (renderValue v)
      | none =>
        match mlookup f k with
        | some v => some (renderValue v)
        | none => none := by
  unfold combinedFields
  rw [mlookup_foldl_insertRendered _ _ _ hp, mlookup_foldl_insertRendered _ _ _ hf]
  cases mlookup p k with
  | some v => rfl
  | none =>
    cases mlookup f k with
    | some v => rfl
    | none => simp [mlookup]

/-! No raw newline ever appears inside a marshalled event: `json.Marshal`
escapes every control character, so the printed line holds exactly one
newline, the one `log.Logger` appends. -/

/-- The string holds no raw newline character. -/
abbrev noNL (s : String) : Prop := '\n' ∉ s.data

theorem noNL_append (a b : String) (ha : noNL a) (hb : noNL b) : noNL (a ++ b) := by
  simp only [noNL, String.data_append, List.mem_append]
  push_neg
  exact ⟨ha, hb⟩

theorem hexDigit_ne_newline (n : Nat) (h : n < 16) : hexDigit n ≠ '\n' := by
  interval_cases n <;> decide

theorem noNL_hex2 (n : Nat) (h : n < 256) : noNL (hex2 n) := by
  intro hmem
  have h1 : n / 16 < 16 := by omega
  have h2 : n % 16 < 16 := by omega
  have hm : '\n' = hexDigit (n / 16) ∨ '\n' = hexDigit (n % 16) := by
    simpa [hex2] using hmem
  rcases hm with hh | hh
  · exact hexDigit_ne_newline _ h1 hh.symm
  · exact hexDigit_ne_newline _ h2 hh.symm

set_option maxHeartbeats 1000000 in
theorem noNL_escapeChar (c : Char) : noNL (escapeChar c) := by
  unfold escapeChar
  split_ifs with h1 h2 h3 h4 h5 h6 h7 h8 h9 h10 h11
  · decide
  · decide
  · decide
  · decide
  · decide
  · exact noNL_append _ _ (by decide) (noNL_hex2 _ (by omega))
  · decide
  · decide
  · decide
  · decide
  · decide
  · intro hmem
    have hc : '\n' = c := by simpa [String.singleton] using hmem
    exact h3 hc.symm

theorem noNL_escapeList (l : List Char) : noNL (escapeList l) := by
  induction l with
  | nil => decide
  | cons c cs ih =>
    simp only [escapeList]
    exact noNL_append _ _ (noNL_escapeChar c) ih

theorem noNL_escapeString (s : String) : noNL (escapeString s) := by
  unfold escapeString
  exact noNL_append _ _ (noNL_append _ _ (by decide) (noNL_escapeList _)) (by decide)

theorem noNL_joinComma (l : List String) (h : ∀ s ∈ l, noNL s) : noNL (joinComma l) := by
  induction l with
  | nil => decide
  | cons s rest ih =>
    cases rest with
    | nil => simpa [joinComma] using h s (by simp)
    | cons t r =>
      simp only [joinComma]
      refine noNL_append _ _ (noNL_append _ _ (h s (by simp)) (by decide)) ?_
      exact ih (fun x hx => h x (by simp [hx]))

theorem noNL_marshalStringMap (m : List (String × String)) : noNL (marshalStringMap m) := by
  unfold marshalStringMap
  refine noNL_append _ _ (noNL_append _ _ (by decide) ?_) (by decide)
  refine noNL_joinComma _ ?_
  intro s hs
  rcases List.mem_map.mp hs with ⟨kv, hkv, rfl⟩
  exact noNL_append _ _ (noNL_append _ _ (noNL_escapeString _) (by decide))
    (noNL_escapeString _)

theorem noNL_eventMembers_snd (e : LogEvent) (kv : String × String)
    (h : kv ∈ eventMembers e) : noNL kv.2 := by
  unfold eventMembers at h
  by_cases he : e.fields = []
  · simp only [he, if_pos rfl] at h
    rcases List.mem_append.mp h with h1 | h2
    · rcases List.mem_append.mp h1 with h3 | h4
      · rw [List.mem_singleton.mp h3]
        exact noNL_marshalStringMap _
      · exact absurd h4 (List.not_mem_nil kv)
    · rw [List.mem_singleton.mp h2]
      exact noNL_escapeString _
  · simp only [if_neg he] at h
    rcases List.mem_append.mp h with h1 | h2
    · rcases List.mem_append.mp h1 with h3 | h4
      · rw [List.mem_singleton.mp h3]
        exact noNL_marshalStringMap _
      · rw [List.mem_singleton.mp h4]
        exact noNL_marshalStringMap _
    · rw [List.mem_singleton.mp h2]
      exact noNL_escapeString _

theorem noNL_serializeEvent (e : LogEvent) : noNL (serializeEvent e) := by
  unfold serializeEvent
  refine noNL_append _ _ (noNL_append _ _ (by decide) ?_) (by decide)
  refine noNL_joinComma _ ?_
  intro s hs
  rcases List.mem_map.mp hs with ⟨kv, hkv, rfl⟩
  exact noNL_append _ _ (noNL_append _ _ (noNL_escapeString _) (by decide))
    (noNL_eventMembers_snd e kv hkv)

theorem goLogPrint_of_noNL (s : String) (h : noNL s) : goLogPrint s = s ++ "\n" := by
  unfold goLogPrint
  rw [if_neg]
  intro hl
  exact h (List.mem_of_getLast?_eq_some hl)

theorem count_newline_of_noNL (s : String) (h : noNL s) :
    ((s ++ "\n").data.count '\n') = 1 := by
  rw [String.data_append, List.count_append]
  rw [List.count_eq_zero.mpr h]
  decide

/-! Characterisation of the caller scan. -/

theorem scanFrames_eq_some (name : String) (cs : List Frame) (i : Nat) (fr : Frame)
    (hfr : cs[i]? = some fr) (hnext : i + 1 < cs.length)
    (hbefore : ∀ g ∈ cs.take i, getPackageName g.function = name)
    (hdiff : getPackageName fr.function ≠ name) :
    scanFrames name cs = some fr := by
  induction cs generalizing i with
  | nil => simp at hfr
  | cons a rest ih =>
    cases i with
    | zero =>
      simp only [List.getElem?_cons_zero, Option.some.injEq] at hfr
      subst hfr
      cases rest with
      | nil => simp at hnext
      | cons b t => simp [scanFrames, hdiff]
    | succ j =>
      simp only [List.getElem?_cons_succ] at hfr
      have hlen : j + 1 < rest.length := by
        simp only [List.length_cons] at hnext
        omega
      have ha : getPackageName a.function = name := by
        apply hbefore
        simp [List.take_succ_cons]
      have hrest : ∀ g ∈ rest.take j, getPackageName g.function = name := by
        intro g hg
        apply hbefore
        simp [List.take_succ_cons, hg]
      cases rest with
      | nil => simp at hlen
      | cons b t =>
        simp only [scanFrames, if_pos ha]
        exact ih j hfr hlen hrest

theorem scanFrames_eq_none (name : String) (cs : List Frame)
    (h : ∀ g ∈ cs.dropLast, getPackageName g.function = name) :
    scanFrames name cs = none := by
  induction cs with
  | nil => rfl
  | cons a rest ih =>
    cases rest with
    | nil => rfl
    | cons b t =>
      have ha : getPackageName a.function = name := by
        apply h
        simp [List.dropLast_cons₂]
      simp only [scanFrames, if_pos ha]
      apply ih
      intro g hg
      apply h
      simp [List.dropLast_cons₂, hg]

/-! Permutation and sorting facts: a Go map value determines the sorted
member list `encoding/json` emits, independent of representation order. -/

theorem mem_iff_mlookup {α : Type} (m : List (String × α)) (k : String) (v : α)
    (h : (m.map Prod.fst).Nodup) : (k, v) ∈ m ↔ mlookup m k = some v := by
  induction m with
  | nil => simp [mlookup]
  | cons kv rest ih =>
    simp only [List.map_cons, List.nodup_cons] at h
    constructor
    · intro hm
      rcases List.mem_cons.mp hm with hh | hh
      · rw [← hh]
        simp [mlookup]
      · have hk : k ∈ rest.map Prod.fst :=
          List.mem_map.mpr ⟨(k, v), hh, rfl⟩
        have hne : ¬ kv.1 = k := by
          intro he
          exact h.1 (he ▸ hk)
        simp only [mlookup, if_neg hne]
        exact (ih h.2).mp hh
    · intro hl
      simp only [mlookup] at hl
      by_cases hk : kv.1 = k
      · rw [if_pos hk] at hl
        have hkv : kv = (k, v) := by
          cases kv with
          | mk a b =>
            simp only [Option.some.injEq] at hl
            simp only at hk
            simp [hk, hl]
        rw [← hkv]
        exact List.mem_cons_self kv rest
      · rw [if_neg hk] at hl
        exact List.mem_cons.mpr (Or.inr ((ih h.2).mpr hl))

theorem mlookup_perm {α : Type} (m1 m2 : List (String × α)) (hperm : m1.Perm m2)
    (h1 : (m1.map Prod.fst).Nodup) (k : String) : mlookup m1 k = mlookup m2 k := by
  have h2 : (m2.map Prod.fst).Nodup := (hperm.map Prod.fst).nodup h1
  cases hv : mlookup m2 k with
  | some v =>
    exact (mem_iff_mlookup m1 k v h1).mp (hperm.mem_iff.mpr ((mem_iff_mlookup m2 k v h2).mpr hv))
  | none =>
    cases hw : mlookup m1 k with
    | none => rfl
    | some w =>
      have : mlookup m2 k = some w :=
        (mem_iff_mlookup m2 k w h2).mp (hperm.mem_iff.mp ((mem_iff_mlookup m1 k w h1).mpr hw))
      rw [this] at hv
      exact absurd hv (by simp)

theorem perm_of_mlookup_eq {α : Type} (m1 m2 : List (String × α))
    (h1 : (m1.map Prod.fst).Nodup) (h2 : (m2.map Prod.fst).Nodup)
    (h : ∀ k, mlookup m1 k = mlookup m2 k) : m1.Perm m2 := by
  rw [List.perm_ext_iff_of_nodup (List.Nodup.of_map _ h1) (List.Nodup.of_map _ h2)]
  intro a
  cases a with
  | mk k v =>
    rw [mem_iff_mlookup m1 k v h1, mem_iff_mlookup m2 k v h2, h k]

/-- Strict key order on members, used to show the sorted form is unique. -/
def keyLT (a b : String × String) : Prop := a.1 < b.1

instance : IsAntisymm (String × String) keyLT :=
  ⟨fun a _b h1 h2 => absurd (lt_trans h1 h2) (lt_irrefl a.1)⟩

theorem sortByKey_eq_of_perm (m1 m2 : List (String × String)) (hperm : m1.Perm m2)
    (h1 : (m1.map Prod.fst).Nodup) : sortByKey m1 = sortByKey m2 := by
  have h1s : ((sortByKey m1).map Prod.fst).Nodup :=
    (((List.perm_insertionSort keyLE m1).map Prod.fst).nodup_iff).mpr h1
  have h2 : (m2.map Prod.fst).Nodup := (hperm.map Prod.fst).nodup h1
  have h2s : ((sortByKey m2).map Prod.fst).Nodup :=
    (((List.perm_insertionSort keyLE m2).map Prod.fst).nodup_iff).mpr h2
  have hp : (sortByKey m1).Perm (sortByKey m2) :=
    ((List.perm_insertionSort keyLE m1).trans hperm).trans
      (List.perm_insertionSort keyLE m2).symm
  have hs1 : (sortByKey m1).Sorted keyLT := by
    have hle : (sortByKey m1).Pairwise keyLE := List.sorted_insertionSort keyLE m1
    have hne : (sortByKey m1).Pairwise (fun a b => a.1 ≠ b.1) :=
      List.pairwise_map.mp h1s
    exact (hle.and hne).imp (fun hab => lt_of_le_of_ne hab.1 hab.2)
  have hs2 : (sortByKey m2).Sorted keyLT := by
    have hle : (sortByKey m2).Pairwise keyLE := List.sorted_insertionSort keyLE m2
    have hne : (sortByKey m2).Pairwise (fun a b => a.1 ≠ b.1) :=
      List.pairwise_map.mp h2s
    exact (hle.and hne).imp (fun hab => lt_of_le_of_ne hab.1 hab.2)
  exact List.eq_of_perm_of_sorted hp hs1 hs2

/-! Heap model of the merge (lines 583-596), used to state the frame
property: Go maps live in a heap of handles, `combinedFields := Fields{}`
allocates a fresh handle, and the two range loops write only through it. -/

/-- A heap of Go maps addressed by handle. -/
structure Heap where
  maps : List (List (String × GoValue))
deriving DecidableEq, Repr

/-- `Fields{}`: allocate a fresh empty map, returning its handle. -/
def heapAlloc (h : Heap) : Heap × Nat :=
  (⟨h.maps ++ [[]]⟩, h.maps.length)

/-- Dereference a possibly-nil map handle; ranging over a nil Go map
visits nothing, so the nil handle reads as the empty map. -/
def heapGet (h : Heap) (id : Option Nat) : List (String × GoValue) :=
  match id with
  | none => []
  | some i => h.maps.getD i []

/-- `m[k] = v` through a handle. -/
def heapInsert (h : Heap) (i : Nat) (k : String) (v : GoValue) : Heap :=
  ⟨h.maps.set i (mapInsert (h.maps.getD i []) k v)⟩

/-- The `Logger` with its two map-valued fields held as heap handles. -/
structure HLogger where
  minimumCallerDepth : Nat
  maximumCallerDepth : Nat
  slogPackageName : String
  loggerHandle : Nat
  permanentFieldsId : Option Nat
deriving DecidableEq, Repr

/-- One range loop of `log`: `combinedFields[k] = fmt.Sprint(v)` for each
entry, after the nil substitution. -/
def mergeLoop (cId : Nat) (entries : List (String × GoValue)) (h : Heap) : Heap :=
  entries.foldl (fun hh kv => heapInsert hh cId kv.1 (GoValue.vstr (renderValue kv.2))) h

/-- Lines 583-596 of `log` in heap form: allocate `combinedFields`, run
the per-call loop, then the permanent-fields loop.  The statement of the
`log` body assigns neither `l` nor the argument map, so both come back
untouched. -/
def logCombine (l : HLogger) (h : Heap) (fId : Option Nat) : HLogger × Heap × Nat :=
  let h1 := (heapAlloc h).1
  let cId := (heapAlloc h).2
  let h2 := mergeLoop cId (heapGet h1 fId) h1
  let h3 := mergeLoop cId (heapGet h2 l.permanentFieldsId) h2
  (l, h3, cId)

theorem getElem?_heapInsert_ne (h : Heap) (i : Nat) (k : String) (v : GoValue)
    (j : Nat) (hne : i ≠ j) : (heapInsert h i k v).maps[j]? = h.maps[j]? := by
  simp [heapInsert, List.getElem?_set_ne hne]

theorem getElem?_mergeLoop_ne (cId : Nat) (entries : List (String × GoValue))
    (h : Heap) (j : Nat) (hne : cId ≠ j) :
    (mergeLoop cId entries h).maps[j]? = h.maps[j]? := by
  induction entries generalizing h with
  | nil => rfl
  | cons kv rest ih =>
    simp only [mergeLoop, List.foldl_cons] at ih ⊢
    rw [ih, getElem?_heapInsert_ne _ _ _ _ _ hne]

/-! Claim theorems. -/

theorem writesOf_log (l : Logger) (lv : Level) (f : Fields) (msg : GoValue)
    (stack : List Frame) (now : String) :
    writesOf (Logger.log l lv f msg stack now) =
      [serializeEvent (Logger.logEvent l lv f msg stack now) ++ "\n"] := by
  unfold Logger.log writesOf
  rw [goLogPrint_of_noNL _ (noNL_serializeEvent _)]
  by_cases hlv : lv = Level.panicLevel
  · simp [hlv]
  · simp [hlv]

/-- Claim C1: for every logging call, with per-call fields F and permanent
fields P, the emitted field set is merge(F, P): on a key held by P the
emitted value comes from P (never from F), keys held by only one side pass
through, and this holds for all F and P including empty ones.  Values pass
through the call's rendering (`fmt.Sprint` with the nil substitution). -/
theorem C1_merge_precedence (l : Logger) (f : Fields)
    (hf : (f.map Prod.fst).Nodup)
    (hp : (l.permanentFields.map Prod.fst).Nodup)
    (lv : Level) (msg : GoValue) (stack : List Frame) (now : String) (k : String) :
    mlookup (Logger.logEvent l lv f msg stack now).fields k =
      match mlookup l.permanentFields k with
      | some v => some (renderValue v)
      | none =>
        match mlookup f k with
        | some v => some (renderValue v)
        | none => none := by
  show mlookup (combinedFields f l.permanentFields) k = _
  exact mlookup_combinedFields f l.permanentFields k hf hp

/-- Witness for C1: concrete maps with the shared key "a", a per-call-only
key "b" and a permanent-only key "c". -/
theorem C1_merge_precedence_witness :
    (([("a", GoValue.vstr ("1")), ("b", GoValue.vstr ("2"))] : Fields).map Prod.fst).Nodup ∧
    (((New [("a", GoValue.vstr ("3")), ("c", GoValue.vstr ("4"))] "slog").permanentFields).map Prod.fst).Nodup ∧
    mlookup ((Logger.logEvent (New [("a", GoValue.vstr ("3")), ("c", GoValue.vstr ("4"))] "slog")
        Level.infoLevel [("a", GoValue.vstr ("1")), ("b", GoValue.vstr ("2"))]
        (GoValue.vstr ("m")) [] "t").fields) "a" =
      match mlookup ((New [("a", GoValue.vstr ("3")), ("c", GoValue.vstr ("4"))] "slog").permanentFields) "a" with
      | some v => some (renderValue v)
      | none =>
        match mlookup [("a", GoValue.vstr ("1")), ("b", GoValue.vstr ("2"))] "a" with
        | some v => some (renderValue v)
        | none => none :=
  ⟨by decide, by decide,
    C1_merge_precedence (New [("a", GoValue.vstr ("3")), ("c", GoValue.vstr ("4"))] "slog")
      [("a", GoValue.vstr ("1")), ("b", GoValue.vstr ("2"))] (by decide) (by decide)
      Level.infoLevel (GoValue.vstr ("m")) [] "t" "a"⟩

/-- Claim C2: when the merged field set is empty the serialized event has
no "fields" member at all; when it is non-empty the member is present.
The merged set is empty exactly when both inputs are. -/
theorem C2_omitempty_fields (l : Logger) (lv : Level) (f : Fields) (msg : GoValue)
    (stack : List Frame) (now : String) :
    ((eventMembers (Logger.logEvent l lv f msg stack now)).map Prod.fst =
      if combinedFields f l.permanentFields = [] then ["_metadata", "message"]
      else ["_metadata", "fields", "message"]) ∧
    (combinedFields f l.permanentFields = [] ↔ f = [] ∧ l.permanentFields = []) := by
  constructor
  · unfold eventMembers Logger.logEvent
    by_cases hc : combinedFields f l.permanentFields = []
    · simp [hc]
    · simp [hc]
  · exact combinedFields_eq_nil f l.permanentFields

/-- Claim C7 counterexample: a field whose value is the empty string is
emitted as the empty string, not as the literal "nil", refuting the part
of the claim that maps empty values to "nil". -/
theorem C7_empty_value_counterexample :
    mlookup ((Logger.logEvent (New [] "github.com/safe-waters/slog")
        Level.infoLevel [("k", GoValue.vstr (""))] (GoValue.vstr ("m")) [] "t").fields) "k" =
      some ("") ∧ ("" : String) ≠ "nil" := by
  exact ⟨by decide, by decide⟩

/-- Claim C7 (amended): a nil field value or message is rendered as the
literal "nil"; every non-nil value (the empty string included, which stays
empty) is rendered by its default string conversion; the event's message
is that rendering, so the emitted values are always strings. -/
theorem C7_render_amended (l : Logger) (lv : Level) (f : Fields) (msg : GoValue)
    (stack : List Frame) (now : String) (s d : String) :
    renderValue GoValue.vnil = "nil" ∧
    renderValue (GoValue.vstr s) = s ∧
    renderValue (GoValue.vother d) = d ∧
    (Logger.logEvent l lv f msg stack now).message = renderValue msg :=
  ⟨rfl, rfl, rfl, rfl⟩

/-- Claim C8: every logging call performs exactly one write, whose content
is the marshalled event object followed by exactly one newline, and the
event metadata carries the level name, the resolved call site and the
timestamp. -/
theorem C8_single_line_write (l : Logger) (lv : Level) (f : Fields) (msg : GoValue)
    (stack : List Frame) (now : String) :
    writesOf (Logger.log l lv f msg stack now) =
      [serializeEvent (Logger.logEvent l lv f msg stack now) ++ "\n"] ∧
    ((serializeEvent (Logger.logEvent l lv f msg stack now) ++ "\n").data.count '\n' = 1) ∧
    mlookup ((Logger.logEvent l lv f msg stack now).metadata) "level" = some (levelString lv) ∧
    mlookup ((Logger.logEvent l lv f msg stack now).metadata) "file" =
      some (fileNameAndLineNumber l stack) ∧
    mlookup ((Logger.logEvent l lv f msg stack now).metadata) "time" = some now := by
  refine ⟨writesOf_log l lv f msg stack now,
    count_newline_of_noNL _ (noNL_serializeEvent _), ?_, ?_, ?_⟩
  · simp [Logger.logEvent, mlookup]
  · simp [Logger.logEvent, mlookup]
  · simp [Logger.logEvent, mlookup]

/-- Claim C5: Panic and Panicf write the serialized event line to the sink
and then raise the unwind signal whose payload is that serialized event;
trace, info, warn and error calls raise no unwind signal. -/
theorem C5_panic_order_and_payload (l : Logger) (f : Fields) (msg : GoValue)
    (stack : List Frame) (now : String) :
    (Logger.Panic l msg stack now =
      [Effect.write (serializeEvent (Logger.logEvent l Level.panicLevel [] msg stack now) ++ "\n"),
       Effect.panicked (serializeEvent (Logger.logEvent l Level.panicLevel [] msg stack now))]) ∧
    (Logger.Panicf l f msg stack now =
      [Effect.write (serializeEvent (Logger.logEvent l Level.panicLevel f msg stack now) ++ "\n"),
       Effect.panicked (serializeEvent (Logger.logEvent l Level.panicLevel f msg stack now))]) ∧
    panicsOf (Logger.Trace l msg stack now) = [] ∧
    panicsOf (Logger.Tracef l f msg stack now) = [] ∧
    panicsOf (Logger.Info l msg stack now) = [] ∧
    panicsOf (Logger.Infof l f msg stack now) = [] ∧
    panicsOf (Logger.Warn l msg stack now) = [] ∧
    panicsOf (Logger.Warnf l f msg stack now) = [] ∧
    panicsOf (Logger.Error l msg stack now) = [] ∧
    panicsOf (Logger.Errorf l f msg stack now) = [] := by
  refine ⟨?_, ?_, ?_, ?_, ?_, ?_, ?_, ?_, ?_, ?_⟩ <;>
    simp [Logger.Panic, Logger.Panicf, Logger.Trace, Logger.Tracef, Logger.Info,
      Logger.Infof, Logger.Warn, Logger.Warnf, Logger.Error, Logger.Errorf,
      Logger.log, panicsOf, goLogPrint_of_noNL _ (noNL_serializeEvent _)]

/-- Claim C6: Fatal and Fatalf write the serialized event line first and
then terminate the process with the non-zero status 1; calls at non-fatal
severities produce no exit effect. -/
theorem C6_fatal_order_and_status (l : Logger) (f : Fields) (msg : GoValue)
    (stack : List Frame) (now : String) :
    (Logger.Fatal l msg stack now =
      [Effect.write (serializeEvent (Logger.logEvent l Level.fatalLevel [] msg stack now) ++ "\n"),
       Effect.exited 1]) ∧
    (Logger.Fatalf l f msg stack now =
      [Effect.write (serializeEvent (Logger.logEvent l Level.fatalLevel f msg stack now) ++ "\n"),
       Effect.exited 1]) ∧
    (1 : Nat) ≠ 0 ∧
    exitsOf (Logger.Trace l msg stack now) = [] ∧
    exitsOf (Logger.Tracef l f msg stack now) = [] ∧
    exitsOf (Logger.Info l msg stack now) = [] ∧
    exitsOf (Logger.Infof l f msg stack now) = [] ∧
    exitsOf (Logger.Warn l msg stack now) = [] ∧
    exitsOf (Logger.Warnf l f msg stack now) = [] ∧
    exitsOf (Logger.Error l msg stack now) = [] ∧
    exitsOf (Logger.Errorf l f msg stack now) = [] ∧
    exitsOf (Logger.Panic l msg stack now) = [] ∧
    exitsOf (Logger.Panicf l f msg stack now) = [] := by
  refine ⟨?_, ?_, ?_, ?_, ?_, ?_, ?_, ?_, ?_, ?_, ?_, ?_, ?_⟩ <;>
    simp [Logger.Fatal, Logger.Fatalf, Logger.Trace, Logger.Tracef, Logger.Info,
      Logger.Infof, Logger.Warn, Logger.Warnf, Logger.Error, Logger.Errorf,
      Logger.Panic, Logger.Panicf,
      Logger.log, exitsOf, goLogPrint_of_noNL _ (noNL_serializeEvent _)]

/-- The package path of this repository, as captured at construction. -/
def slogPackagePath : String := "github.com/safe-waters/slog"

/-- A frame inside the library. -/
def slogLogFrame : Frame :=
  ⟨"github.com/safe-waters/slog.(*Logger).log",
   "/go/src/github.com/safe-waters/slog/log.go", 609⟩

/-- An external caller frame. -/
def mainFrame : Frame := ⟨"main.main", "/app/main.go", 10⟩

/-- A stack whose captured window holds exactly one frame, the external
caller: four skipped logging internals, then the caller, then nothing. -/
def shortStack : List Frame :=
  [slogLogFrame, slogLogFrame, slogLogFrame, slogLogFrame, mainFrame]

/-- A stack with a runtime frame after the caller, so the caller is
followed by a further frame inside the captured window. -/
def deepStack : List Frame :=
  [slogLogFrame, slogLogFrame, slogLogFrame, slogLogFrame, mainFrame,
   ⟨"runtime.main", "/usr/local/go/src/runtime/proc.go", 250⟩]

/-- Claim C3 counterexample: with a stack whose only captured frame is the
external caller, that first frame's package differs from the library's,
yet the resolver reports the placeholder "?:0" instead of that frame's
"basename:line" — the loop `for f, again := frames.Next(); again; ...`
never examines the final captured frame. -/
theorem C3_scan_counterexample :
    captured (New [] slogPackagePath) shortStack = [mainFrame] ∧
    getPackageName mainFrame.function ≠ (New [] slogPackagePath).slogPackageName ∧
    fileNameAndLineNumber (New [] slogPackagePath) shortStack = "?:0" ∧
    "?:0" ≠ filepathBase mainFrame.file ++ ":" ++ toString mainFrame.line :=
  ⟨by decide, by decide, by decide, by decide⟩

/-- Claim C3 (amended): the resolver walks the captured window (at most
the configured maximum number of frames) after skipping the fixed number
of innermost frames, skipping frames whose package name equals the
library's; it stops at the first differing frame and reports it as
"basename:line" — provided a further frame follows it inside the window,
because the scan loop never examines the final captured frame. -/
theorem C3_scan_amended (l : Logger) (stack : List Frame) (i : Nat) (fr : Frame)
    (hfr : (captured l stack)[i]? = some fr)
    (hnext : i + 1 < (captured l stack).length)
    (hbefore : ∀ g ∈ (captured l stack).take i,
      getPackageName g.function = l.slogPackageName)
    (hdiff : getPackageName fr.function ≠ l.slogPackageName) :
    fileNameAndLineNumber l stack = filepathBase fr.file ++ ":" ++ toString fr.line ∧
    (captured l stack).length ≤ l.maximumCallerDepth := by
  constructor
  · unfold fileNameAndLineNumber
    rw [scanFrames_eq_some l.slogPackageName _ i fr hfr hnext hbefore hdiff]
  · unfold captured
    rw [List.length_take]
    exact min_le_left _ _

/-- Witness for the amended C3: on `deepStack` the caller frame at index 0
of the captured window is followed by the runtime frame, and the resolver
reports "main.go:10". -/
theorem C3_scan_amended_witness :
    (captured (New [] slogPackagePath) deepStack)[0]? = some mainFrame ∧
    0 + 1 < (captured (New [] slogPackagePath) deepStack).length ∧
    (∀ g ∈ (captured (New [] slogPackagePath) deepStack).take 0,
      getPackageName g.function = (New [] slogPackagePath).slogPackageName) ∧
    getPackageName mainFrame.function ≠ (New [] slogPackagePath).slogPackageName ∧
    (fileNameAndLineNumber (New [] slogPackagePath) deepStack =
        filepathBase mainFrame.file ++ ":" ++ toString mainFrame.line ∧
      (captured (New [] slogPackagePath) deepStack).length ≤
        (New [] slogPackagePath).maximumCallerDepth) :=
  ⟨by decide, by decide, by decide, by decide,
    C3_scan_amended (New [] slogPackagePath) deepStack 0 mainFrame
      (by decide) (by decide) (by decide) (by decide)⟩

/-- Claim C4: when every examined captured frame still belongs to the
library (so no qualifying external frame exists within the scan bound),
or the stack cannot be walked at all, the metadata file value is exactly
"?:0" and the call still performs its single normal write. -/
theorem C4_unresolvable_placeholder (l : Logger) (stack : List Frame)
    (h : ∀ g ∈ (captured l stack).dropLast,
      getPackageName g.function = l.slogPackageName)
    (lv : Level) (f : Fields) (msg : GoValue) (now : String) :
    fileNameAndLineNumber l stack = "?:0" ∧
    mlookup ((Logger.logEvent l lv f msg stack now).metadata) "file" = some ("?:0") ∧
    writesOf (Logger.log l lv f msg stack now) =
      [serializeEvent (Logger.logEvent l lv f msg stack now) ++ "\n"] := by
  have h1 : fileNameAndLineNumber l stack = "?:0" := by
    unfold fileNameAndLineNumber
    rw [scanFrames_eq_none _ _ h]
  exact ⟨h1, by simp [Logger.logEvent, mlookup, h1], writesOf_log l lv f msg stack now⟩

/-- Witness for C4: the empty stack cannot be walked at all; the logger
still writes one line whose metadata file value is "?:0". -/
theorem C4_unresolvable_placeholder_witness :
    (∀ g ∈ (captured (New [] slogPackagePath) []).dropLast,
      getPackageName g.function = (New [] slogPackagePath).slogPackageName) ∧
    (fileNameAndLineNumber (New [] slogPackagePath) [] = "?:0" ∧
      mlookup ((Logger.logEvent (New [] slogPackagePath) Level.infoLevel []
        (GoValue.vstr ("hello")) [] "t").metadata) "file" = some ("?:0") ∧
      writesOf (Logger.log (New [] slogPackagePath) Level.infoLevel []
        (GoValue.vstr ("hello")) [] "t") =
        [serializeEvent (Logger.logEvent (New [] slogPackagePath) Level.infoLevel []
          (GoValue.vstr ("hello")) [] "t") ++ "\n"]) :=
  ⟨by decide,
    C4_unresolvable_placeholder (New [] slogPackagePath) [] (by decide)
      Level.infoLevel [] (GoValue.vstr ("hello")) "t"⟩

/-- Claim C9: a logging call leaves the Logger's own state unchanged and
never mutates the caller's per-call map or any other pre-existing map:
the merge allocates a fresh map (its handle is the next free one) and
writes only through that handle, so every handle that existed before the
call dereferences to the same contents afterwards. -/
theorem C9_no_mutation (l : HLogger) (h : Heap) (fId : Option Nat) (id : Nat)
    (hid : id < h.maps.length) :
    (logCombine l h fId).1 = l ∧
    (logCombine l h fId).2.2 = h.maps.length ∧
    (logCombine l h fId).2.1.maps[id]? = h.maps[id]? := by
  refine ⟨rfl, rfl, ?_⟩
  show (mergeLoop h.maps.length _ (mergeLoop h.maps.length _ (heapAlloc h).1)).maps[id]? =
    h.maps[id]?
  have hne : h.maps.length ≠ id := by omega
  rw [getElem?_mergeLoop_ne _ _ _ _ hne, getElem?_mergeLoop_ne _ _ _ _ hne]
  show (h.maps ++ [[]])[id]? = h.maps[id]?
  exact List.getElem?_append_left hid

/-- Witness for C9: one pre-existing map used both as the per-call map and
as the permanent map; it is unchanged by the call and the fresh handle is
the next free one. -/
theorem C9_no_mutation_witness :
    0 < (Heap.mk [[("a", GoValue.vstr ("x"))]]).maps.length ∧
    ((logCombine ⟨4, 25, "slog", 0, some 0⟩ (Heap.mk [[("a", GoValue.vstr ("x"))]]) (some 0)).1 =
        ⟨4, 25, "slog", 0, some 0⟩ ∧
      (logCombine ⟨4, 25, "slog", 0, some 0⟩ (Heap.mk [[("a", GoValue.vstr ("x"))]]) (some 0)).2.2 =
        (Heap.mk [[("a", GoValue.vstr ("x"))]]).maps.length ∧
      (logCombine ⟨4, 25, "slog", 0, some 0⟩ (Heap.mk [[("a", GoValue.vstr ("x"))]]) (some 0)).2.1.maps[0]? =
        (Heap.mk [[("a", GoValue.vstr ("x"))]]).maps[0]?) :=
  ⟨by decide,
    C9_no_mutation ⟨4, 25, "slog", 0, some 0⟩ (Heap.mk [[("a", GoValue.vstr ("x"))]])
      (some 0) 0 (by decide)⟩

/-- Claim C10: the bytes written are a deterministic function of the
inputs: two calls with the same severity, message, stack, timestamp and
configuration, whose per-call maps agree as maps and whose permanent maps
agree as maps (same bindings, any representation order), emit identical
effect traces — member order and map key order in the JSON are stable. -/
theorem C10_deterministic_bytes (minD maxD : Nat) (pkg : String)
    (p1 p2 f1 f2 : Fields) (hpp : p1.Perm p2) (hfp : f1.Perm f2)
    (hp1 : (p1.map Prod.fst).Nodup) (hf1 : (f1.map Prod.fst).Nodup)
    (lv : Level) (msg : GoValue) (stack : List Frame) (now : String) :
    Logger.log ⟨minD, maxD, pkg, p1⟩ lv f1 msg stack now =
      Logger.log ⟨minD, maxD, pkg, p2⟩ lv f2 msg stack now := by
  have hp2 : (p2.map Prod.fst).Nodup := (hpp.map Prod.fst).nodup hp1
  have hf2 : (f2.map Prod.fst).Nodup := (hfp.map Prod.fst).nodup hf1
  have hlook : ∀ k, mlookup (combinedFields f1 p1) k = mlookup (combinedFields f2 p2) k := by
    intro k
    rw [mlookup_combinedFields f1 p1 k hf1 hp1, mlookup_combinedFields f2 p2 k hf2 hp2,
      mlookup_perm p1 p2 hpp hp1 k, mlookup_perm f1 f2 hfp hf1 k]
  have hcperm : (combinedFields f1 p1).Perm (combinedFields f2 p2) :=
    perm_of_mlookup_eq _ _ (nodup_keys_combinedFields f1 p1)
      (nodup_keys_combinedFields f2 p2) hlook
  have hmm : marshalStringMap (combinedFields f1 p1) = marshalStringMap (combinedFields f2 p2) := by
    unfold marshalStringMap
    rw [sortByKey_eq_of_perm _ _ hcperm (nodup_keys_combinedFields f1 p1)]
  have hnil : (combinedFields f1 p1 = []) ↔ (combinedFields f2 p2 = []) := by
    rw [← List.length_eq_zero, ← List.length_eq_zero, hcperm.length_eq]
  have hev : serializeEvent (Logger.logEvent ⟨minD, maxD, pkg, p1⟩ lv f1 msg stack now) =
      serializeEvent (Logger.logEvent ⟨minD, maxD, pkg, p2⟩ lv f2 msg stack now) := by
    unfold serializeEvent eventMembers Logger.logEvent
    by_cases hc : combinedFields f1 p1 = []
    · have hc2 : combinedFields f2 p2 = [] := hnil.mp hc
      simp [hc, hc2, fileNameAndLineNumber, captured]
    · have hc2 : ¬ combinedFields f2 p2 = [] := fun hh => hc (hnil.mpr hh)
      simp [hc, hc2, hmm, fileNameAndLineNumber, captured]
  unfold Logger.log
  rw [hev]

/-- Witness for C10: reordered permanent and per-call maps produce the
same effect trace. -/
theorem C10_deterministic_bytes_witness :
    ([("a", GoValue.vstr ("1")), ("b", GoValue.vnil)] : Fields).Perm
      [("b", GoValue.vnil), ("a", GoValue.vstr ("1"))] ∧
    ([("x", GoValue.vother ("7")), ("y", GoValue.vstr ("z"))] : Fields).Perm
      [("y", GoValue.vstr ("z")), ("x", GoValue.vother ("7"))] ∧
    (([("a", GoValue.vstr ("1")), ("b", GoValue.vnil)] : Fields).map Prod.fst).Nodup ∧
    (([("x", GoValue.vother ("7")), ("y", GoValue.vstr ("z"))] : Fields).map Prod.fst).Nodup ∧
    Logger.log ⟨4, 25, "slog", [("a", GoValue.vstr ("1")), ("b", GoValue.vnil)]⟩
        Level.warnLevel [("x", GoValue.vother ("7")), ("y", GoValue.vstr ("z"))]
        (GoValue.vstr ("m")) [] "t" =
      Logger.log ⟨4, 25, "slog", [("b", GoValue.vnil), ("a", GoValue.vstr ("1"))]⟩
        Level.warnLevel [("y", GoValue.vstr ("z")), ("x", GoValue.vother ("7"))]
        (GoValue.vstr ("m")) [] "t" :=
  ⟨by decide, by decide, by decide, by decide,
    C10_deterministic_bytes 4 25 "slog"
      [("a", GoValue.vstr ("1")), ("b", GoValue.vnil)]
      [("b", GoValue.vnil), ("a", GoValue.vstr ("1"))]
      [("x", GoValue.vother ("7")), ("y", GoValue.vstr ("z"))]
      [("y", GoValue.vstr ("z")), ("x", GoValue.vother ("7"))]
      (by decide) (by decide) (by decide) (by decide)
      Level.warnLevel (GoValue.vstr ("m")) [] "t"⟩
